import Mathlib

set_option allowUnsafeReducibility true
attribute [local semireducible] Rat.add Rat.sub Rat.mul Rat.div Rat.neg Rat.inv

/-!
Verification of the extraction-and-reconciliation engine of the Tanzanian
commercial-rent invoice processor (`app.py`).

The Python code works on `decimal.Decimal` values (exact base-10 arithmetic).
We embed these as rationals `ℚ`; `Decimal.quantize(..., ROUND_HALF_UP)` is
embedded as `quantizeHalfUp` below (round to nearest at `10 ^ (-e)`, ties away
from zero, which is what Python's `ROUND_HALF_UP` does).

Text is embedded as `List Char`.  The two amount regexes of
`InvoiceParser.parse_invoice`,

  `(?:TZS|TSh|Tsh)\s*([0-9,]+(?:\.\d{2})?)`   (marker before amount) and
  `([0-9,]+(?:\.\d{2})?)\s*(?:TZS|TSh)`       (amount before marker),

both case-insensitive, are embedded as the deterministic matchers `matchP1`
and `matchP2`.  Backtracking is resolved statically: the character classes of
adjacent regex pieces (`\s`, `[0-9,]`, the marker letters, `.`) are pairwise
disjoint, so every starred/plus piece must take its maximal munch, and the
optional fraction `(?:\.\d{2})?` succeeds at a given start iff it is present
and the rest of the pattern matches after it (when the character after the
digit run is `.`, dropping the fraction always fails on that very `.`).
`finditerAux` embeds `re.finditer`: leftmost matches, non-overlapping,
resuming after each match.  The VAT regexes of the same function are embedded
likewise as `matchV1`/`matchV2` with `searchAux` embedding `re.search`.
-/

/-- Embedding of `Decimal.quantize(Decimal("0.01" / "0.0001"), rounding=ROUND_HALF_UP)`:
round `x` to `e` decimal places, ties away from zero. -/
def quantizeHalfUp (e : ℕ) (x : ℚ) : ℚ :=
  if 0 ≤ x then ((⌊x * 10 ^ e + 1 / 2⌋ : ℤ) : ℚ) / 10 ^ e
  else -(((⌊(-x) * 10 ^ e + 1 / 2⌋ : ℤ) : ℚ) / 10 ^ e)

namespace TaxCalculator

/-- `WHT_RATE = Decimal("0.10")`: 10% withholding tax. -/
def WHT_RATE : ℚ := 1 / 10

/-- `VAT_RATE_STANDARD = Decimal("0.18")`: 18% standard VAT rate. -/
def VAT_RATE_STANDARD : ℚ := 18 / 100

/-- `calculate_wht`: 10% WHT on gross rent, quantized to cents half-up. -/
def calculate_wht (gross_rent : ℚ) : ℚ :=
  quantizeHalfUp 2 (gross_rent * WHT_RATE)

/-- `calculate_payment_to_landlord`: `(gross_rent - wht) + vat_amount`, quantized. -/
def calculate_payment_to_landlord (gross_rent vat_amount wht : ℚ) : ℚ :=
  quantizeHalfUp 2 ((gross_rent - wht) + vat_amount)

/-- `calculate_total_outflow`: `payment_to_landlord + wht`, quantized. -/
def calculate_total_outflow (payment_to_landlord wht : ℚ) : ℚ :=
  quantizeHalfUp 2 (payment_to_landlord + wht)

/-- `verify_vat_rate`: effective rate quantized to 4 places, and whether it is
within 0.01 of the standard 18% rate; division guarded against a zero base. -/
def verify_vat_rate (vat_amount base_amount : ℚ) : ℚ × Bool :=
  if base_amount = 0 then (0, false)
  else
    let effective_rate := quantizeHalfUp 4 (vat_amount / base_amount)
    (effective_rate, decide (|effective_rate - VAT_RATE_STANDARD| < 1 / 100))

end TaxCalculator

/-- Whitespace recognized by the regex class `\s` (ASCII range). -/
def isSpaceChar (c : Char) : Bool :=
  c = ' ' || c = '\t' || c = '\n' || c = '\r' || c = '\x0b' || c = '\x0c'

/-- Characters of the regex class `[0-9,]` (digit groups with thousands commas). -/
def isAmountChar (c : Char) : Bool :=
  c.isDigit || c = ','

/-- Case-insensitive currency marker `TZS|TSh|Tsh` (with `re.IGNORECASE`,
all three alternatives collapse to any casing of `tzs` or `tsh`). -/
def isMarker (c1 c2 c3 : Char) : Bool :=
  c1.toLower = 't' && ((c2.toLower = 'z' && c3.toLower = 's')
    || (c2.toLower = 's' && c3.toLower = 'h'))

/-- Greedy `\s*`. -/
def skipWS (l : List Char) : List Char :=
  l.dropWhile isSpaceChar

/-- Numeric value of a digit string (as read by `Decimal`). -/
def natOfDigits (l : List Char) : ℕ :=
  l.foldl (fun n c => 10 * n + (c.toNat - 48)) 0

/-- `amount_str.replace(',', '')`. -/
def stripCommas (l : List Char) : List Char :=
  l.filter (fun c => c ≠ ',')

/-- `Decimal(s)` on the comma-stripped capture of an amount regex.  After
stripping, such a capture is `digits`, `digits . d d`, `. d d`, or empty;
`Decimal` accepts the first three and raises `InvalidOperation` (embedded as
`none`) on the empty string. -/
def parseDec (l : List Char) : Option ℚ :=
  let ip := l.takeWhile Char.isDigit
  match l.drop ip.length with
  | [] => if ip.isEmpty then none else some (natOfDigits ip)
  | ['.', d1, d2] =>
      if d1.isDigit && d2.isDigit then
        some ((natOfDigits ip : ℚ) + (natOfDigits [d1, d2] : ℚ) / 100)
      else none
  | _ => none

/-- The greedy optional fraction `(?:\.\d{2})?`: when the text continues with
`.` and two digits, the taken fraction and the rest; `none` when the fraction
is not present (in which case the optional group matches empty). -/
def fracSplit (l : List Char) : Option (List Char × List Char) :=
  match l with
  | '.' :: d1 :: d2 :: rest2 =>
    if d1.isDigit && d2.isDigit then some (['.', d1, d2], rest2) else none
  | _ => none

/-- Match of `(?:TZS|TSh|Tsh)\s*([0-9,]+(?:\.\d{2})?)` at the start of `s`
(case-insensitive); returns the capture group and the remaining suffix. -/
def matchP1 (s : List Char) : Option (List Char × List Char) :=
  match s with
  | c1 :: c2 :: c3 :: rest =>
    if isMarker c1 c2 c3 then
      let afterWs := skipWS rest
      let run := afterWs.takeWhile isAmountChar
      if run.isEmpty then none
      else
        match fracSplit (afterWs.drop run.length) with
        | some (fr, rest2) => some (run ++ fr, rest2)
        | none => some (run, afterWs.drop run.length)
    else none
  | _ => none

/-- Match of `([0-9,]+(?:\.\d{2})?)\s*(?:TZS|TSh)` at the start of `s`
(case-insensitive); returns the capture group and the remaining suffix.
When the character after the digit run is `.`, the regex can only succeed
with the fraction taken: skipping it leaves `\s*(?:TZS|TSh)` facing that `.`,
which matches neither, so the no-fraction alternative never rescues a failed
continuation. -/
def matchP2 (s : List Char) : Option (List Char × List Char) :=
  let run := s.takeWhile isAmountChar
  if run.isEmpty then none
  else
    match fracSplit (s.drop run.length) with
    | some (fr, rest2) =>
      match skipWS rest2 with
      | m1 :: m2 :: m3 :: rest3 =>
        if isMarker m1 m2 m3 then some (run ++ fr, rest3) else none
      | _ => none
    | none =>
      match skipWS (s.drop run.length) with
      | m1 :: m2 :: m3 :: rest3 =>
        if isMarker m1 m2 m3 then some (run, rest3) else none
      | _ => none

/-- `re.finditer`: try the matcher at every position left to right; on a match
emit `(position, capture)` and resume right after the matched span.  `fuel`
bounds the recursion; `text.length` fuel is always enough since every step
consumes at least one character. -/
def finditerAux (m : List Char → Option (List Char × List Char)) :
    ℕ → ℕ → List Char → List (ℕ × List Char)
  | 0, _, _ => []
  | _ + 1, _, [] => []
  | fuel + 1, i, c :: tail =>
    match m (c :: tail) with
    | some (g, rest) =>
        (i, g) :: finditerAux m fuel (i + ((c :: tail).length - rest.length)) rest
    | none => finditerAux m fuel (i + 1) tail

/-- All matches of a pattern over the text, with their start positions. -/
def finditer (m : List Char → Option (List Char × List Char)) (text : List Char) :
    List (ℕ × List Char) :=
  finditerAux m text.length 0 text

/-- The `amounts` collection loop of `parse_invoice` for one pattern: each
match's capture is comma-stripped and fed to `Decimal`; a parse failure is
silently skipped (`except: continue`). -/
def collectPos (m : List Char → Option (List Char × List Char)) (text : List Char) :
    List (ℕ × ℚ) :=
  (finditer m text).filterMap fun p => (parseDec (stripCommas p.2)).map fun q => (p.1, q)

/-- The full `amounts` list of `parse_invoice` with match positions: all
matches of the first pattern, then all matches of the second pattern. -/
def extractAmountsPos (text : List Char) : List (ℕ × ℚ) :=
  collectPos matchP1 text ++ collectPos matchP2 text

/-- The `amounts` list of `parse_invoice` (values only). -/
def extractAmounts (text : List Char) : List ℚ :=
  (extractAmountsPos text).map Prod.snd

/-- The raw captures of the amount scan, before `Decimal` parsing, in
collection order. -/
def amountTokens (text : List Char) : List (List Char) :=
  (finditer matchP1 text).map Prod.snd ++ (finditer matchP2 text).map Prod.snd

/-- The word `VAT`, case-insensitively, at the head of `l`. -/
def isVatAt (l : List Char) : Bool :=
  match l with
  | a :: b :: c :: _ => a.toLower = 'v' && b.toLower = 'a' && c.toLower = 't'
  | _ => false

/-- Match of `VAT\s*(?:@\s*)?(\d+)%[:\s]*(?:TZS|TSh)?\s*([0-9,]+(?:\.\d{2})?)`
at the start of `s` (case-insensitive); returns the rate digits (group 1) and
the amount capture (group 2). -/
def matchV1 (s : List Char) : Option (ℕ × List Char) :=
  match s with
  | c1 :: c2 :: c3 :: rest =>
    if c1.toLower = 'v' && c2.toLower = 'a' && c3.toLower = 't' then
      let r1 := skipWS rest
      let r2 := match r1 with
        | '@' :: r => skipWS r
        | _ => r1
      let ds := r2.takeWhile Char.isDigit
      if ds.isEmpty then none
      else
        match r2.drop ds.length with
        | '%' :: r3 =>
          let r4 := r3.dropWhile (fun ch => ch = ':' || isSpaceChar ch)
          let r5 := match r4 with
            | m1 :: m2 :: m3 :: r => if isMarker m1 m2 m3 then skipWS r else r4
            | _ => r4
          let run := r5.takeWhile isAmountChar
          if run.isEmpty then none
          else
            match fracSplit (r5.drop run.length) with
            | some (fr, _) => some (natOfDigits ds, run ++ fr)
            | none => some (natOfDigits ds, run)
        | _ => none
    else none
  | _ => none

/-- Match of `(?:TZS|TSh)?\s*([0-9,]+(?:\.\d{2})?)\s*VAT` at the start of `s`
(case-insensitive); returns the amount capture. -/
def matchV2 (s : List Char) : Option (List Char) :=
  let r1 := match s with
    | m1 :: m2 :: m3 :: r => if isMarker m1 m2 m3 then skipWS r else skipWS s
    | _ => skipWS s
  let run := r1.takeWhile isAmountChar
  if run.isEmpty then none
  else
    match fracSplit (r1.drop run.length) with
    | some (fr, rest2) =>
      if isVatAt (skipWS rest2) then some (run ++ fr) else none
    | none =>
      if isVatAt (skipWS (r1.drop run.length)) then some run else none

/-- `re.search`: the result of the matcher at the leftmost position where it
succeeds. -/
def searchAux {α : Type} (m : List Char → Option α) : ℕ → List Char → Option α
  | 0, _ => none
  | fuel + 1, s =>
    match m s with
    | some r => some r
    | none =>
      match s with
      | [] => none
      | _ :: tail => searchAux m fuel tail

/-- Leftmost match of a pattern over the whole text. -/
def searchFirst {α : Type} (m : List Char → Option α) (text : List Char) : Option α :=
  searchAux m (text.length + 1) text

/-- The VAT clause scan of `parse_invoice`: try the percent pattern first
(setting rate and amount), then the `... VAT` pattern (amount only).
`Decimal` on an all-commas capture raises (no `try` here), embedded as
`Except.error`. -/
def extractVat (text : List Char) : Except Unit (Option (Option ℚ × ℚ)) :=
  match searchFirst matchV1 text with
  | some (d, g) =>
    match parseDec (stripCommas g) with
    | some q => Except.ok (some (some ((d : ℚ) / 100), q))
    | none => Except.error ()
  | none =>
    match searchFirst matchV2 text with
    | some g =>
      match parseDec (stripCommas g) with
      | some q => Except.ok (some (none, q))
      | none => Except.error ()
    | none => Except.ok none

/-- Monetary fields of `InvoiceData` populated by `parse_invoice` (the textual
fields — invoice number, dates, landlord details — never interact with the
monetary pipeline and are omitted from the embedding). -/
structure InvoiceData where
  vat_rate : Option ℚ
  vat_amount_tzs : Option ℚ
  base_rent_tzs : Option ℚ
  total_amount_tzs : Option ℚ
  raw_text : List Char
deriving DecidableEq

/-- Python truthiness of an optional `Decimal`: `None` and zero are falsy. -/
def truthy : Option ℚ → Bool
  | none => false
  | some q => decide (q ≠ 0)

/-- `parse_invoice` (monetary part): the amount scan, the VAT clause scan, and
the positional inference block (`amounts[-1]` as total, `amounts[-2]` as VAT
when unset and at least three amounts, base derived as total minus VAT when
both are truthy).  `none` embeds the uncaught `InvalidOperation` the VAT
branch can raise. -/
def parse_invoice (text : List Char) : Option InvoiceData :=
  match extractVat text with
  | Except.error _ => none
  | Except.ok vinfo =>
    let amounts := extractAmounts text
    let vr : Option ℚ := vinfo.bind Prod.fst
    let vat0 : Option ℚ := vinfo.map Prod.snd
    some (match amounts.reverse with
      | t :: v :: rest =>
        let vat1 := if vat0.isNone && !rest.isEmpty then some v else vat0
        let base := if decide (t ≠ 0) && truthy vat1 then some (t - vat1.getD 0) else none
        { vat_rate := vr, vat_amount_tzs := vat1, base_rent_tzs := base,
          total_amount_tzs := some t, raw_text := text }
      | _ =>
        { vat_rate := vr, vat_amount_tzs := vat0, base_rent_tzs := none,
          total_amount_tzs := none, raw_text := text })

/-- The distinct error messages `validate_invoice` can append, one constructor
per message (the mismatch message interpolates the three amounts). -/
inductive ValidationError where
  | baseMissing : ValidationError
  | vatMissing : ValidationError
  | totalMissing : ValidationError
  | amountMismatch : ℚ → ℚ → ℚ → ValidationError
deriving DecidableEq

/-- `not x or x <= 0` on an optional `Decimal` (base rent and total checks). -/
def invalidPos : Option ℚ → Bool
  | none => true
  | some q => decide (q = 0) || decide (q ≤ 0)

/-- `not x or x < 0` on an optional `Decimal` (the VAT amount check). -/
def invalidVat : Option ℚ → Bool
  | none => true
  | some q => decide (q = 0) || decide (q < 0)

/-- `validate_invoice`: the four checks, each appending its message, none
short-circuiting the others; `ok` iff the error list is empty. -/
def validate_invoice (inv : InvoiceData) : Bool × List ValidationError :=
  let errors : List ValidationError :=
    (if invalidPos inv.base_rent_tzs then [ValidationError.baseMissing] else [])
    ++ (if invalidVat inv.vat_amount_tzs then [ValidationError.vatMissing] else [])
    ++ (if invalidPos inv.total_amount_tzs then [ValidationError.totalMissing] else [])
    ++ (if truthy inv.base_rent_tzs && truthy inv.vat_amount_tzs
          && truthy inv.total_amount_tzs
          && decide ((1 : ℚ) / 10 < |inv.base_rent_tzs.getD 0 + inv.vat_amount_tzs.getD 0
              - inv.total_amount_tzs.getD 0|)
        then [ValidationError.amountMismatch (inv.base_rent_tzs.getD 0)
                (inv.vat_amount_tzs.getD 0) (inv.total_amount_tzs.getD 0)]
        else [])
  (errors.isEmpty, errors)

/-- A value representable exactly with two decimal digits (a whole number of
cents). -/
def IsCents (q : ℚ) : Prop :=
  ∃ n : ℤ, q = (n : ℚ) / 100

/-- Text where an amount-before-marker token precedes a marker-before-amount
token: `500 TZS` at position 0, `TZS 900` at position 8. -/
def exOrderText : List Char := "500 TZS TZS 900".toList

/-- Text with three marker-before-amount tokens whose trailing amounts also
match the amount-before-marker pattern, driving the positional heuristic. -/
def exHeurText : List Char := "TZS900\nTZS50\nTZS5".toList

/-- The record `parse_invoice` produces on `exHeurText`. -/
def exHeurInv : InvoiceData :=
  { vat_rate := none, vat_amount_tzs := some 900, base_rent_tzs := some (-850),
    total_amount_tzs := some 50, raw_text := exHeurText }

/-- Text whose positional inference picks a zero VAT amount. -/
def exZeroVatText : List Char := "100 TZS 0 TZS 300 TZS".toList

/-- Text with an explicit 18% VAT clause and a stated total. -/
def exStdText : List Char := "VAT 18% TZS 900,000.00 Total TZS 5,900,000.00".toList

/-- The record `parse_invoice` produces on `exStdText`. -/
def exStdInv : InvoiceData :=
  { vat_rate := some (18 / 100), vat_amount_tzs := some 900000,
    base_rent_tzs := some 5000000, total_amount_tzs := some 5900000, raw_text := exStdText }

/-- Text containing an all-commas amount token, whose comma-stripped capture
fails `Decimal` parsing. -/
def exMalformedText : List Char := "TZS ,, TZS 500".toList

/-- The amount captures of `exMalformedText` after the malformed one. -/
def exMalformedPost : List (List Char) := ["500".toList, ",,".toList]

/-- Invoice record with a present zero VAT amount and consistent base/total. -/
def exZeroVatInvoice : InvoiceData :=
  { vat_rate := none, vat_amount_tzs := some 0, base_rent_tzs := some 1000000,
    total_amount_tzs := some 1000000, raw_text := [] }

/-!  Lemmas. -/

lemma length_skipWS_le (l : List Char) : (skipWS l).length ≤ l.length := by
  have h := congrArg List.length (List.takeWhile_append_dropWhile (p := isSpaceChar) (l := l))
  rw [List.length_append] at h
  rw [skipWS]
  omega

lemma length_takeWhile_le' (p : Char → Bool) (l : List Char) :
    (l.takeWhile p).length ≤ l.length := by
  have h := congrArg List.length (List.takeWhile_append_dropWhile (p := p) (l := l))
  rw [List.length_append] at h
  omega

/-- A taken fraction accounts for exactly three characters. -/
lemma fracSplit_shrinks {l fr rest2 : List Char} (h : fracSplit l = some (fr, rest2)) :
    rest2.length + 3 = l.length := by
  simp only [fracSplit] at h
  split at h
  · split at h
    · rw [Option.some.injEq, Prod.mk.injEq] at h
      obtain ⟨-, rfl⟩ := h
      simp [List.length_cons]
    · simp at h
  · simp at h

/-- A successful `matchP1` consumes at least one character. -/
lemma matchP1_shrinks {s g rest : List Char} (h : matchP1 s = some (g, rest)) :
    rest.length < s.length := by
  cases s with
  | nil => simp [matchP1] at h
  | cons c1 s1 =>
  cases s1 with
  | nil => simp [matchP1] at h
  | cons c2 s2 =>
  cases s2 with
  | nil => simp [matchP1] at h
  | cons c3 r =>
  simp only [matchP1] at h
  have hws : (skipWS r).length ≤ r.length := length_skipWS_le r
  have hdrop : ((skipWS r).drop ((skipWS r).takeWhile isAmountChar).length).length
      ≤ (skipWS r).length := by
    rw [List.length_drop]
    omega
  split at h
  · split at h
    · exact absurd h (by simp)
    · split at h
      · rename_i fr rest2 heq
        have hlen := fracSplit_shrinks heq
        rw [Option.some.injEq, Prod.mk.injEq] at h
        obtain ⟨-, rfl⟩ := h
        simp only [List.length_cons]
        omega
      · rw [Option.some.injEq, Prod.mk.injEq] at h
        obtain ⟨-, rfl⟩ := h
        simp only [List.length_cons]
        omega
  · exact absurd h (by simp)

/-- A successful `matchP2` consumes at least one character. -/
lemma matchP2_shrinks {s g rest : List Char} (h : matchP2 s = some (g, rest)) :
    rest.length < s.length := by
  simp only [matchP2] at h
  have hrun : (s.takeWhile isAmountChar).length ≤ s.length :=
    length_takeWhile_le' isAmountChar s
  have hdrop : (s.drop (s.takeWhile isAmountChar).length).length
      = s.length - (s.takeWhile isAmountChar).length := List.length_drop _ _
  split at h
  · exact absurd h (by simp)
  · rename_i hne
    have hpos : 0 < (s.takeWhile isAmountChar).length := by
      cases he : s.takeWhile isAmountChar with
      | nil => rw [he] at hne; simp at hne
      | cons a l => simp [he]
    split at h
    · rename_i fr rest2 heq
      have hlen := fracSplit_shrinks heq
      have hws : (skipWS rest2).length ≤ rest2.length := length_skipWS_le rest2
      split at h
      · rename_i m1 m2 m3 rest3 heq2
        have hlen2 := congrArg List.length heq2
        simp only [List.length_cons] at hlen2
        split at h
        · rw [Option.some.injEq, Prod.mk.injEq] at h
          obtain ⟨-, rfl⟩ := h
          omega
        · exact absurd h (by simp)
      · exact absurd h (by simp)
    · have hws : (skipWS (s.drop (s.takeWhile isAmountChar).length)).length
          ≤ (s.drop (s.takeWhile isAmountChar).length).length :=
        length_skipWS_le _
      split at h
      · rename_i m1 m2 m3 rest3 heq2
        have hlen2 := congrArg List.length heq2
        simp only [List.length_cons] at hlen2
        split at h
        · rw [Option.some.injEq, Prod.mk.injEq] at h
          obtain ⟨-, rfl⟩ := h
          omega
        · exact absurd h (by simp)
      · exact absurd h (by simp)

/-- Positions emitted by the scan are bounded below by the running offset and
strictly increase. -/
lemma finditerAux_spec (m : List Char → Option (List Char × List Char))
    (hm : ∀ s g rest, m s = some (g, rest) → rest.length < s.length) :
    ∀ (fuel i : ℕ) (s : List Char),
      (∀ p ∈ finditerAux m fuel i s, i ≤ p.1)
        ∧ (finditerAux m fuel i s).Pairwise (fun p q => p.1 < q.1) := by
  intro fuel
  induction fuel with
  | zero => intro i s; simp [finditerAux]
  | succ n ih =>
    intro i s
    cases s with
    | nil => simp [finditerAux]
    | cons c tail =>
      cases hms : m (c :: tail) with
      | none =>
        simp only [finditerAux, hms]
        refine ⟨fun p hp => ?_, (ih (i + 1) tail).2⟩
        have := (ih (i + 1) tail).1 p hp
        omega
      | some gr =>
        obtain ⟨g, rest⟩ := gr
        simp only [finditerAux, hms]
        have hlt : rest.length < (c :: tail).length := hm _ _ _ hms
        have ih1 := ih (i + ((c :: tail).length - rest.length)) rest
        constructor
        · intro p hp
          rcases List.mem_cons.mp hp with h | h
          · subst h; exact le_refl _
          · have := ih1.1 p h
            omega
        · rw [List.pairwise_cons]
          refine ⟨fun q hq => ?_, ih1.2⟩
          have := ih1.1 q hq
          omega

/-- Filtering the parsed captures preserves the strict ordering of positions. -/
lemma pairwise_fst_filterMap (f : List Char → Option ℚ) (l : List (ℕ × List Char))
    (h : l.Pairwise fun p q => p.1 < q.1) :
    (l.filterMap fun p => (f p.2).map fun q => (p.1, q)).Pairwise
      fun p q => p.1 < q.1 := by
  induction l with
  | nil => simp
  | cons a l ih =>
    rw [List.pairwise_cons] at h
    cases hfa : f a.2 with
    | none =>
      simp only [List.filterMap_cons, hfa, Option.map_none']
      exact ih h.2
    | some q =>
      simp only [List.filterMap_cons, hfa, Option.map_some']
      rw [List.pairwise_cons]
      refine ⟨fun b hb => ?_, ih h.2⟩
      rw [List.mem_filterMap] at hb
      obtain ⟨p, hpl, hp⟩ := hb
      rw [Option.map_eq_some'] at hp
      obtain ⟨q', -, rfl⟩ := hp
      exact h.1 p hpl

/-- The values collected for one pattern are the parses of its raw captures. -/
lemma map_snd_filterMap (l : List (ℕ × List Char)) :
    ((l.filterMap fun p => (parseDec (stripCommas p.2)).map fun q => (p.1, q)).map Prod.snd)
      = (l.map Prod.snd).filterMap fun g => parseDec (stripCommas g) := by
  induction l with
  | nil => simp
  | cons a l ih =>
    cases hfa : parseDec (stripCommas a.2) with
    | none => simp [List.filterMap_cons, hfa, ih]
    | some q => simp [List.filterMap_cons, hfa, ih]

/-- The collected amounts are exactly the parseable raw captures, in
collection order. -/
lemma extractAmounts_eq_tokens (text : List Char) :
    extractAmounts text = (amountTokens text).filterMap fun g => parseDec (stripCommas g) := by
  rw [extractAmounts, extractAmountsPos, List.map_append, amountTokens,
    List.filterMap_append, collectPos, collectPos, map_snd_filterMap, map_snd_filterMap]

/-- A successful `Decimal` parse of a stripped capture yields a non-negative
whole number of cents. -/
lemma parseDec_some {l : List Char} {q : ℚ} (h : parseDec l = some q) :
    0 ≤ q ∧ IsCents q := by
  simp only [parseDec] at h
  split at h
  · split at h
    · simp at h
    · rw [Option.some.injEq] at h
      subst h
      refine ⟨by positivity, ⟨(natOfDigits (l.takeWhile Char.isDigit) : ℤ) * 100, ?_⟩⟩
      rw [eq_div_iff (by norm_num : (100 : ℚ) ≠ 0)]
      push_cast
      ring
  · rename_i d1 d2 heq
    split at h
    · rw [Option.some.injEq] at h
      subst h
      refine ⟨by positivity,
        ⟨(natOfDigits (l.takeWhile Char.isDigit) : ℤ) * 100 + natOfDigits [d1, d2], ?_⟩⟩
      rw [eq_div_iff (by norm_num : (100 : ℚ) ≠ 0)]
      push_cast
      ring
    · simp at h
  · simp at h

/-- Every collected amount is a non-negative whole number of cents. -/
lemma extractAmounts_mem {text : List Char} {q : ℚ} (h : q ∈ extractAmounts text) :
    0 ≤ q ∧ IsCents q := by
  rw [extractAmounts_eq_tokens, List.mem_filterMap] at h
  obtain ⟨g, -, hg⟩ := h
  exact parseDec_some hg

/-- A VAT amount produced by the VAT clause scan is a non-negative whole
number of cents. -/
lemma extractVat_some {text : List Char} {r : Option ℚ} {q : ℚ}
    (h : extractVat text = Except.ok (some (r, q))) : 0 ≤ q ∧ IsCents q := by
  simp only [extractVat] at h
  split at h
  · split at h
    · rename_i hpd
      rw [Except.ok.injEq, Option.some.injEq, Prod.mk.injEq] at h
      obtain ⟨-, rfl⟩ := h
      exact parseDec_some hpd
    · simp at h
  · split at h
    · split at h
      · rename_i hpd
        rw [Except.ok.injEq, Option.some.injEq, Prod.mk.injEq] at h
        obtain ⟨-, rfl⟩ := h
        exact parseDec_some hpd
      · simp at h
    · simp at h

lemma IsCents.sub {a b : ℚ} (ha : IsCents a) (hb : IsCents b) : IsCents (a - b) := by
  obtain ⟨m, rfl⟩ := ha
  obtain ⟨n, rfl⟩ := hb
  exact ⟨m - n, by push_cast; ring⟩

/-- C4 counterexample: on `exOrderText` the collected sequence is
`[900 at position 8, 500 at position 0]`, so the amounts are not listed in
the order they appear in the text across the two token orders. -/
theorem C4_text_order_counterexample :
    extractAmountsPos exOrderText = [(8, 900), (0, 500)]
      ∧ ¬ ((extractAmountsPos exOrderText).map Prod.fst).Pairwise (· ≤ ·) := by
  have he : extractAmountsPos exOrderText = [(8, 900), (0, 500)] := by decide
  refine ⟨he, ?_⟩
  rw [he]
  intro hp
  rw [List.map_cons, List.map_cons, List.map_nil, List.pairwise_cons] at hp
  have := hp.1 0 (by simp)
  omega

/-- C4 (amended): the amount scan collects all marker-before-amount matches,
then all amount-before-marker matches; within each pattern the matches appear
in strictly increasing text order (repeats kept), but the concatenation is not
globally in text order. -/
theorem C4_amounts_pattern_grouped_order (text : List Char) :
    extractAmountsPos text = collectPos matchP1 text ++ collectPos matchP2 text
      ∧ ((collectPos matchP1 text).map Prod.fst).Pairwise (· < ·)
      ∧ ((collectPos matchP2 text).map Prod.fst).Pairwise (· < ·) := by
  refine ⟨rfl, ?_, ?_⟩
  · rw [collectPos, finditer, List.pairwise_map]
    exact pairwise_fst_filterMap (fun g => parseDec (stripCommas g)) _
      (finditerAux_spec matchP1 (fun _ _ _ h => matchP1_shrinks h) text.length 0 text).2
  · rw [collectPos, finditer, List.pairwise_map]
    exact pairwise_fst_filterMap (fun g => parseDec (stripCommas g)) _
      (finditerAux_spec matchP2 (fun _ _ _ h => matchP2_shrinks h) text.length 0 text).2

/-- C9: a capture whose comma-stripped string fails the `Decimal` parse is
skipped silently and the scan still collects every other parseable amount. -/
theorem C9_malformed_token_skipped (text : List Char) (pre post : List (List Char))
    (g : List Char) (h : amountTokens text = pre ++ g :: post)
    (hg : parseDec (stripCommas g) = none) :
    extractAmounts text
      = (pre.filterMap fun s => parseDec (stripCommas s))
        ++ (post.filterMap fun s => parseDec (stripCommas s)) := by
  rw [extractAmounts_eq_tokens, h, List.filterMap_append]
  simp only [List.filterMap_cons, hg]

/-- C9 witness: on `exMalformedText` the all-commas capture `,,` fails to
parse and the remaining amount 500 is still collected. -/
theorem C9_malformed_token_skipped_witness :
    amountTokens exMalformedText = [] ++ ",,".toList :: exMalformedPost
      ∧ parseDec (stripCommas ",,".toList) = none
      ∧ extractAmounts exMalformedText
          = (List.filterMap (fun s => parseDec (stripCommas s)) [])
            ++ (exMalformedPost.filterMap fun s => parseDec (stripCommas s)) :=
  ⟨by decide, by decide,
    C9_malformed_token_skipped exMalformedText [] exMalformedPost (",,".toList)
      (by decide) (by decide)⟩

/-- C3: whenever the amount scan yields at least two amounts, the last one is
assigned to `total_amount`; and when the VAT clause scan left `vat_amount`
unset and at least three amounts exist, the second-to-last is assigned to
`vat_amount`. -/
theorem C3_positional_inference (text : List Char) (inv : InvoiceData) (t v : ℚ)
    (rest : List ℚ) (hp : parse_invoice text = some inv)
    (hr : (extractAmounts text).reverse = t :: v :: rest) :
    inv.total_amount_tzs = some t
      ∧ (extractVat text = Except.ok none → rest ≠ [] → inv.vat_amount_tzs = some v) := by
  cases hve : extractVat text with
  | error e =>
    simp only [parse_invoice, hve] at hp
    exact Option.noConfusion hp
  | ok vinfo =>
    simp only [parse_invoice, hve] at hp
    rw [hr, Option.some.injEq] at hp
    subst hp
    constructor
    · rfl
    · intro hnone hrest
      rw [Except.ok.injEq] at hnone
      subst hnone
      cases rest with
      | nil => exact absurd rfl hrest
      | cons a rest' => simp

/-- C3 witness: on `exHeurText` the scan yields `[900, 50, 5, 900, 50]`, no
VAT clause is present, and the parse assigns total 50 and VAT 900. -/
theorem C3_positional_inference_witness :
    parse_invoice exHeurText = some exHeurInv
      ∧ exHeurInv.total_amount_tzs = some 50
      ∧ exHeurInv.vat_amount_tzs = some 900 :=
  ⟨by decide,
    (C3_positional_inference exHeurText exHeurInv 50 900 [5, 50, 900]
        (by decide) (by decide)).1,
    (C3_positional_inference exHeurText exHeurInv 50 900 [5, 50, 900]
        (by decide) (by decide)).2 (by rfl) (by decide)⟩

/-- C5 counterexample: on `exZeroVatText` the parse knows
`total_amount = 300` and `vat_amount = 0`, yet `base_rent` stays unset
(Python truthiness: the zero `Decimal` is falsy), not `300 - 0`. -/
theorem C5_zero_vat_counterexample :
    (parse_invoice exZeroVatText).map
        (fun i => (i.base_rent_tzs, i.vat_amount_tzs, i.total_amount_tzs))
      = some (none, some 0, some 300)
      ∧ (none : Option ℚ) ≠ some (300 - 0) :=
  ⟨by decide, by decide⟩

/-- C5 (amended): whenever both `total_amount` and `vat_amount` are known and
nonzero while `base_rent` is not set, the parse derives
`base_rent = total_amount - vat_amount`. -/
theorem C5_base_derivation (text : List Char) (inv : InvoiceData) (t v : ℚ)
    (hp : parse_invoice text = some inv) (ht : inv.total_amount_tzs = some t)
    (hv : inv.vat_amount_tzs = some v) (ht0 : t ≠ 0) (hv0 : v ≠ 0) :
    inv.base_rent_tzs = some (t - v) := by
  cases hve : extractVat text with
  | error e =>
    simp only [parse_invoice, hve] at hp
    exact Option.noConfusion hp
  | ok vinfo =>
    simp only [parse_invoice, hve] at hp
    cases hr : (extractAmounts text).reverse with
    | nil =>
      rw [hr, Option.some.injEq] at hp
      subst hp
      simp at ht
    | cons t' l =>
      cases l with
      | nil =>
        rw [hr, Option.some.injEq] at hp
        subst hp
        simp at ht
      | cons v' rest =>
        rw [hr, Option.some.injEq] at hp
        subst hp
        dsimp only at ht hv ⊢
        rw [Option.some.injEq] at ht
        subst ht
        rw [hv]
        simp [truthy, ht0, hv0]

/-- C5 witness: on `exStdText` (explicit 18% VAT clause, total 5,900,000.00)
the parse derives `base_rent = 5,900,000.00 - 900,000.00 = 5,000,000.00`. -/
theorem C5_base_derivation_witness :
    parse_invoice exStdText = some exStdInv
      ∧ exStdInv.base_rent_tzs = some (5900000 - 900000)
      ∧ exStdInv.base_rent_tzs = some 5000000 :=
  ⟨by decide,
    C5_base_derivation exStdText exStdInv 5900000 900000 (by decide) (by decide)
      (by decide) (by norm_num) (by norm_num),
    by decide⟩

/-- C7 counterexample: on `exHeurText` the parse produces
`base_rent = -850.00`, a negative monetary field. -/
theorem C7_negative_base_counterexample :
    (parse_invoice exHeurText).map InvoiceData.base_rent_tzs = some (some (-850))
      ∧ ¬ (0 : ℚ) ≤ -850 :=
  ⟨by decide, by decide⟩

/-- C7 (amended): every monetary field a parse produces is an exact whole
number of cents; `vat_amount` and `total_amount` are additionally
non-negative, but the derived `base_rent = total - vat` can be negative. -/
theorem C7_monetary_field_invariant (text : List Char) (inv : InvoiceData)
    (hp : parse_invoice text = some inv) :
    (∀ q : ℚ, inv.vat_amount_tzs = some q → 0 ≤ q ∧ IsCents q)
      ∧ (∀ q : ℚ, inv.total_amount_tzs = some q → 0 ≤ q ∧ IsCents q)
      ∧ (∀ q : ℚ, inv.base_rent_tzs = some q → IsCents q) := by
  cases hve : extractVat text with
  | error e =>
    simp only [parse_invoice, hve] at hp
    exact Option.noConfusion hp
  | ok vinfo =>
    have hvat0 : ∀ q : ℚ, vinfo.map Prod.snd = some q → 0 ≤ q ∧ IsCents q := by
      intro q hq
      rw [Option.map_eq_some'] at hq
      obtain ⟨p, hv1, rfl⟩ := hq
      exact extractVat_some (r := p.1) (by rw [hve, hv1])
    simp only [parse_invoice, hve] at hp
    cases hr : (extractAmounts text).reverse with
    | nil =>
      rw [hr, Option.some.injEq] at hp
      subst hp
      refine ⟨fun q hq => hvat0 q hq, fun q hq => ?_, fun q hq => ?_⟩
      · simp at hq
      · simp at hq
    | cons t' l =>
      cases l with
      | nil =>
        rw [hr, Option.some.injEq] at hp
        subst hp
        refine ⟨fun q hq => hvat0 q hq, fun q hq => ?_, fun q hq => ?_⟩
        · simp at hq
        · simp at hq
      | cons v' rest =>
        rw [hr, Option.some.injEq] at hp
        subst hp
        have ht' : t' ∈ extractAmounts text :=
          List.mem_reverse.mp (by rw [hr]; simp)
        have hv' : v' ∈ extractAmounts text :=
          List.mem_reverse.mp (by rw [hr]; simp)
        have htS := extractAmounts_mem ht'
        have hvS := extractAmounts_mem hv'
        have hvat1 : ∀ q : ℚ, (if (vinfo.map Prod.snd).isNone && !rest.isEmpty
              then some v' else vinfo.map Prod.snd) = some q → 0 ≤ q ∧ IsCents q := by
          intro q hq
          split at hq
          · rw [Option.some.injEq] at hq
            subst hq
            exact hvS
          · exact hvat0 q hq
        refine ⟨fun q hq => hvat1 q hq, fun q hq => ?_, fun q hq => ?_⟩
        · dsimp only at hq
          rw [Option.some.injEq] at hq
          subst hq
          exact htS
        · dsimp only at hq
          cases hvt : (if (vinfo.map Prod.snd).isNone && !rest.isEmpty
              then some v' else vinfo.map Prod.snd) with
          | none =>
            rw [hvt] at hq
            simp [truthy] at hq
          | some w =>
            rw [hvt] at hq
            split at hq
            · rw [Option.some.injEq] at hq
              subst hq
              simp only [Option.getD_some]
              exact IsCents.sub htS.2 (hvat1 w hvt).2
            · exact absurd hq (by simp)

/-- C7 witness: on `exStdText` the extracted VAT amount 900,000.00 is
non-negative and a whole number of cents. -/
theorem C7_monetary_field_invariant_witness :
    (0 : ℚ) ≤ 900000 ∧ IsCents 900000 :=
  (C7_monetary_field_invariant exStdText exStdInv (by decide)).1 900000 (by decide)

/-- C1: `validate_invoice` on a record whose `vat_amount` is present and equal
to 0.00 (with valid base and total) appends the VAT-amount error message and
fails validation — `not Decimal("0")` is true in Python, so the zero the
`< 0` comparison was written to admit is rejected by the truthiness check. -/
theorem C1_zero_vat_rejected :
    exZeroVatInvoice.vat_amount_tzs = some 0
      ∧ ValidationError.vatMissing ∈ (validate_invoice exZeroVatInvoice).2
      ∧ (validate_invoice exZeroVatInvoice).1 = false := by
  decide

lemma quantizeHalfUp_of_nonneg (e : ℕ) {x : ℚ} (hx : 0 ≤ x) :
    quantizeHalfUp e x = ((⌊x * 10 ^ e + 1 / 2⌋ : ℤ) : ℚ) / 10 ^ e := by
  rw [quantizeHalfUp, if_pos hx]

lemma quantizeHalfUp_nonneg (e : ℕ) {x : ℚ} (hx : 0 ≤ x) : 0 ≤ quantizeHalfUp e x := by
  rw [quantizeHalfUp_of_nonneg e hx]
  have h1 : (0 : ℤ) ≤ ⌊x * 10 ^ e + 1 / 2⌋ := Int.le_floor.mpr (by positivity)
  have h2 : (0 : ℚ) ≤ ((⌊x * 10 ^ e + 1 / 2⌋ : ℤ) : ℚ) := by exact_mod_cast h1
  positivity

lemma floor_intCast_add_half (m : ℤ) : ⌊(m : ℚ) + 1 / 2⌋ = m := by
  rw [add_comm, Int.floor_add_int]
  norm_num

/-- Values that are already an integer multiple of the quantum are fixed points
of the rounding. -/
lemma quantizeHalfUp_intMul (e : ℕ) (n : ℤ) :
    quantizeHalfUp e ((n : ℚ) / 10 ^ e) = (n : ℚ) / 10 ^ e := by
  have hE : (0 : ℚ) < 10 ^ e := by positivity
  rcases le_or_lt 0 ((n : ℚ) / 10 ^ e) with h | h
  · rw [quantizeHalfUp_of_nonneg e h, div_mul_cancel₀ _ (ne_of_gt hE),
      floor_intCast_add_half]
  · rw [quantizeHalfUp, if_neg (not_le.mpr h)]
    have h1 : -((n : ℚ) / 10 ^ e) = ((-n : ℤ) : ℚ) / 10 ^ e := by push_cast; ring
    rw [h1, div_mul_cancel₀ _ (ne_of_gt hE), floor_intCast_add_half]
    push_cast
    ring

/-- Shifting the argument by an integer multiple of the quantum shifts the
rounded value accordingly, as long as both arguments are non-negative. -/
lemma quantizeHalfUp_add_intMul (e : ℕ) (n : ℤ) {x : ℚ} (hx : 0 ≤ x)
    (hxn : 0 ≤ x + (n : ℚ) / 10 ^ e) :
    quantizeHalfUp e (x + (n : ℚ) / 10 ^ e) = quantizeHalfUp e x + (n : ℚ) / 10 ^ e := by
  have hE : (0 : ℚ) < 10 ^ e := by positivity
  rw [quantizeHalfUp_of_nonneg e hxn, quantizeHalfUp_of_nonneg e hx]
  have h1 : (x + (n : ℚ) / 10 ^ e) * 10 ^ e + 1 / 2 = (x * 10 ^ e + 1 / 2) + n := by
    field_simp
    ring
  rw [h1, Int.floor_add_int]
  push_cast
  ring

/-- Evaluation helper: rounding a concrete non-negative value. -/
lemma quantizeHalfUp_eval (e : ℕ) (x : ℚ) (n : ℤ) (h1 : 0 ≤ x)
    (h2 : ⌊x * 10 ^ e + 1 / 2⌋ = n) : quantizeHalfUp e x = (n : ℚ) / 10 ^ e := by
  rw [quantizeHalfUp_of_nonneg e h1, h2]

/-- The computed withholding tax never exceeds a non-negative base rent. -/
lemma TaxCalculator.calculate_wht_le {b : ℚ} (hb : 0 ≤ b) :
    TaxCalculator.calculate_wht b ≤ b := by
  have hx : 0 ≤ b * TaxCalculator.WHT_RATE :=
    mul_nonneg hb (by norm_num [TaxCalculator.WHT_RATE])
  rw [TaxCalculator.calculate_wht, quantizeHalfUp_of_nonneg 2 hx]
  have hE : (0 : ℚ) < 10 ^ 2 := by norm_num
  rw [div_le_iff₀ hE]
  have harg : b * TaxCalculator.WHT_RATE * 10 ^ 2 + 1 / 2 = 10 * b + 1 / 2 := by
    rw [TaxCalculator.WHT_RATE]; ring
  rw [harg]
  rcases lt_or_le b (1 / 20) with h | h
  · have hlt : (10 * b + 1 / 2 : ℚ) < 1 := by linarith
    have h1 : ⌊(10 * b + 1 / 2 : ℚ)⌋ < 1 := Int.floor_lt.mpr (by exact_mod_cast hlt)
    have h2 : ((⌊(10 * b + 1 / 2 : ℚ)⌋ : ℤ) : ℚ) ≤ 0 := by
      exact_mod_cast Int.lt_add_one_iff.mp h1
    nlinarith
  · have h1 : ((⌊(10 * b + 1 / 2 : ℚ)⌋ : ℤ) : ℚ) ≤ 10 * b + 1 / 2 := Int.floor_le _
    nlinarith

/-- C2: tax shifting is zero-sum. For every non-negative `base_rent` and
`vat_amount`, the total outflow computed by the TaxEngine pipeline equals
`round_half_up(base_rent + vat_amount, 2)`. -/
theorem C2_total_outflow_zero_sum (b v : ℚ) (hb : 0 ≤ b) (hv : 0 ≤ v) :
    TaxCalculator.calculate_total_outflow
        (TaxCalculator.calculate_payment_to_landlord b v (TaxCalculator.calculate_wht b))
        (TaxCalculator.calculate_wht b)
      = quantizeHalfUp 2 (b + v) := by
  have hx : 0 ≤ b * TaxCalculator.WHT_RATE :=
    mul_nonneg hb (by norm_num [TaxCalculator.WHT_RATE])
  have hkdef : TaxCalculator.calculate_wht b
      = ((⌊b * TaxCalculator.WHT_RATE * 10 ^ 2 + 1 / 2⌋ : ℤ) : ℚ) / 10 ^ 2 := by
    rw [TaxCalculator.calculate_wht, quantizeHalfUp_of_nonneg 2 hx]
  set k : ℤ := ⌊b * TaxCalculator.WHT_RATE * 10 ^ 2 + 1 / 2⌋ with hk
  have hWle : TaxCalculator.calculate_wht b ≤ b := TaxCalculator.calculate_wht_le hb
  have hbv : 0 ≤ b + v := add_nonneg hb hv
  have hshift : (b - TaxCalculator.calculate_wht b) + v
      = (b + v) + ((-k : ℤ) : ℚ) / 10 ^ 2 := by
    rw [hkdef]
    push_cast
    ring
  have hshiftnn : 0 ≤ (b + v) + ((-k : ℤ) : ℚ) / 10 ^ 2 := by
    rw [← hshift]
    linarith
  have hpay : TaxCalculator.calculate_payment_to_landlord b v (TaxCalculator.calculate_wht b)
      = quantizeHalfUp 2 (b + v) + ((-k : ℤ) : ℚ) / 10 ^ 2 := by
    rw [TaxCalculator.calculate_payment_to_landlord, hshift,
      quantizeHalfUp_add_intMul 2 (-k) hbv hshiftnn]
  rw [TaxCalculator.calculate_total_outflow, hpay]
  have hcancel : quantizeHalfUp 2 (b + v) + ((-k : ℤ) : ℚ) / 10 ^ 2
      + TaxCalculator.calculate_wht b = quantizeHalfUp 2 (b + v) := by
    rw [hkdef]
    push_cast
    ring
  rw [hcancel, quantizeHalfUp_of_nonneg 2 hbv, quantizeHalfUp_intMul]

/-- C2 witness: the zero-sum identity at the spec's end-to-end example,
`base_rent = 5,000,000.00` and `vat_amount = 900,000.00`. -/
theorem C2_total_outflow_zero_sum_witness :
    (0 : ℚ) ≤ 5000000 ∧ (0 : ℚ) ≤ 900000 ∧
      TaxCalculator.calculate_total_outflow
          (TaxCalculator.calculate_payment_to_landlord 5000000 900000
            (TaxCalculator.calculate_wht 5000000))
          (TaxCalculator.calculate_wht 5000000)
        = quantizeHalfUp 2 (5000000 + 900000) :=
  ⟨by norm_num, by norm_num,
    C2_total_outflow_zero_sum 5000000 900000 (by norm_num) (by norm_num)⟩

/-- C6: the withholding tax is `round_half_up(base_rent * 0.10, 2)` for every
decimal `base_rent`; in particular 5,000,000.00 yields 500,000.00 and
1.005 yields 0.10 (not 0.11), since rounding is applied to the product. -/
theorem C6_wht_round_half_up :
    (∀ b : ℚ, TaxCalculator.calculate_wht b = quantizeHalfUp 2 (b * (1 / 10)))
      ∧ TaxCalculator.calculate_wht 5000000 = 500000
      ∧ TaxCalculator.calculate_wht (201 / 200) = 1 / 10
      ∧ TaxCalculator.calculate_wht (201 / 200) ≠ 11 / 100 := by
  have h1 : TaxCalculator.calculate_wht 5000000 = 500000 := by
    rw [TaxCalculator.calculate_wht,
      quantizeHalfUp_eval 2 _ 50000000 (by norm_num [TaxCalculator.WHT_RATE])
        (by norm_num [TaxCalculator.WHT_RATE])]
    norm_num
  have h2 : TaxCalculator.calculate_wht (201 / 200) = 1 / 10 := by
    rw [TaxCalculator.calculate_wht,
      quantizeHalfUp_eval 2 _ 10 (by norm_num [TaxCalculator.WHT_RATE])
        (by norm_num [TaxCalculator.WHT_RATE])]
    norm_num
  refine ⟨fun b => rfl, h1, h2, by rw [h2]; norm_num⟩

/-- C8: for a nonzero base, `verify_vat_rate` returns the effective rate
`vat / base` rounded half-up to 4 places, and flags `is_standard = false`
exactly when the rounded rate is at least 0.01 away from 0.18; with the two
spec examples evaluated. -/
theorem C8_verify_vat_rate (v b : ℚ) (hb : b ≠ 0) :
    (TaxCalculator.verify_vat_rate v b).1 = quantizeHalfUp 4 (v / b)
      ∧ ((TaxCalculator.verify_vat_rate v b).2 = false
          ↔ (1 / 100 : ℚ) ≤ |quantizeHalfUp 4 (v / b) - 18 / 100|)
      ∧ TaxCalculator.verify_vat_rate 900000 5000000 = (18 / 100, true)
      ∧ TaxCalculator.verify_vat_rate 1000000 5000000 = (20 / 100, false) := by
  have key : ∀ v' b' : ℚ, b' ≠ 0 → TaxCalculator.verify_vat_rate v' b' =
      (quantizeHalfUp 4 (v' / b'),
        decide (|quantizeHalfUp 4 (v' / b') - TaxCalculator.VAT_RATE_STANDARD| < 1 / 100)) := by
    intro v' b' h
    simp only [TaxCalculator.verify_vat_rate, if_neg h]
  refine ⟨?_, ?_, ?_, ?_⟩
  · rw [key v b hb]
  · rw [key v b hb]
    simp [TaxCalculator.VAT_RATE_STANDARD, decide_eq_false_iff_not, not_lt]
  · rw [key _ _ (by norm_num : (5000000 : ℚ) ≠ 0)]
    have hr : quantizeHalfUp 4 ((900000 : ℚ) / 5000000) = 18 / 100 := by
      rw [quantizeHalfUp_eval 4 _ 1800 (by norm_num) (by norm_num)]
      norm_num
    rw [hr, Prod.mk.injEq]
    refine ⟨rfl, ?_⟩
    rw [decide_eq_true_eq, TaxCalculator.VAT_RATE_STANDARD]
    rw [show (18 : ℚ) / 100 - 18 / 100 = 0 by norm_num, abs_zero]
    norm_num
  · rw [key _ _ (by norm_num : (5000000 : ℚ) ≠ 0)]
    have hr : quantizeHalfUp 4 ((1000000 : ℚ) / 5000000) = 20 / 100 := by
      rw [quantizeHalfUp_eval 4 _ 2000 (by norm_num) (by norm_num)]
      norm_num
    rw [hr, Prod.mk.injEq]
    refine ⟨rfl, ?_⟩
    rw [decide_eq_false_iff_not, TaxCalculator.VAT_RATE_STANDARD]
    rw [show (20 : ℚ) / 100 - 18 / 100 = 2 / 100 by norm_num,
      abs_of_nonneg (by norm_num : (0 : ℚ) ≤ 2 / 100)]
    norm_num

/-- C8 witness: instantiated at the spec's standard-rate example. -/
theorem C8_verify_vat_rate_witness :
    (5000000 : ℚ) ≠ 0 ∧
      ((TaxCalculator.verify_vat_rate 900000 5000000).1
          = quantizeHalfUp 4 (900000 / 5000000)
        ∧ ((TaxCalculator.verify_vat_rate 900000 5000000).2 = false
            ↔ (1 / 100 : ℚ) ≤ |quantizeHalfUp 4 ((900000 : ℚ) / 5000000) - 18 / 100|)
        ∧ TaxCalculator.verify_vat_rate 900000 5000000 = (18 / 100, true)
        ∧ TaxCalculator.verify_vat_rate 1000000 5000000 = (20 / 100, false)) :=
  ⟨by norm_num, C8_verify_vat_rate 900000 5000000 (by norm_num)⟩

/-- C10: the division in `verify_vat_rate` is guarded: a zero base amount
returns `(0, False)` for every VAT amount instead of raising. -/
theorem C10_verify_vat_rate_zero_base (v : ℚ) :
    TaxCalculator.verify_vat_rate v 0 = (0, false) := by
  rw [TaxCalculator.verify_vat_rate, if_pos rfl]
